import Mathlib

/-
  Verification of the saree-pos local transactional state layer
  (src/saree-pos/src/App.jsx): the in-memory inventory/cart/sales model,
  its operations (add, checkout, return, import, export) and the startup
  migration from the legacy storage mechanism.

  JavaScript strings are modelled as Lean `String`s; the ASCII-only
  normalisations `toUpperCase` / `toLowerCase` used by the app on product
  codes are modelled per character by `Char.toUpper` / `Char.toLower`.
  JavaScript numbers produced by `parseFloat` are modelled as `Rat`,
  with `Option Rat` standing for a parse result (`none` = `NaN`,
  i.e. absent or unparsable input); the JS idiom `parseFloat(x) || 0`
  becomes `Option.getD 0` (a parsed literal `0` is falsy in JS and the
  idiom also yields `0` there, so the two agree).  Fallible operations
  return `Except`.
-/

namespace SareePos

/-! ## String helpers: models of the JS built-ins used by the code -/

/-- Model of JS `String.prototype.toUpperCase` (per-character, ASCII range:
product codes). -/
def jsToUpper (s : String) : String := String.mk (s.data.map Char.toUpper)

/-- Model of JS `String.prototype.toLowerCase` (per-character, ASCII range). -/
def jsToLower (s : String) : String := String.mk (s.data.map Char.toLower)

/-- Contiguous-sublist check (used to model JS `String.prototype.includes`). -/
def hasInfix (pat : List Char) : List Char → Bool
  | [] => pat.isEmpty
  | c :: rest => pat.isPrefixOf (c :: rest) || hasInfix pat rest

/-- Model of JS `str.includes(pat)` : substring containment. -/
def jsIncludes (s pat : String) : Bool := hasInfix pat.data s.data

/-- Model of JS whitespace for `String.prototype.trim` (the characters the
app's data can realistically carry). -/
def isWS (c : Char) : Bool := c = ' ' || c = '\t' || c = '\n' || c = '\r'

/-- Model of JS `str.trim()` : drop leading and trailing whitespace. -/
def jsTrim (s : String) : String :=
  String.mk (((s.data.dropWhile isWS).reverse.dropWhile isWS).reverse)

/-- Model of JS `str.replace(/"/g, '')` : delete every quote character. -/
def stripQuotes (s : String) : String :=
  String.mk (s.data.filter (fun c => c ≠ '"'))

/-- Model of the JS defaulting idiom `formValue || sentinel` for string
fields: `none` is an absent form field (JS `null`), and the empty string is
falsy in JS, so both fall back to the sentinel. -/
def jsOrStr (v : Option String) (d : String) : String :=
  match v with
  | none => d
  | some s => if s = "" then d else s

/-- Model of the JS defaulting idiom `parseFloat(formValue) || 0` for numeric
fields: `none` is an absent or unparsable input (`parseFloat` gave `NaN`). -/
def jsOrNum (v : Option Rat) : Rat := v.getD 0

theorem char_toNat_ofNat (n : Nat) (h : n < 55296) : (Char.ofNat n).toNat = n := by
  have hv : n.isValidChar := Or.inl h
  rw [Char.ofNat, dif_pos hv]
  simp [Char.ofNatAux, Char.toNat, UInt32.toNat, BitVec.toNat_ofNatLt]

theorem char_toUpper_idem (c : Char) : c.toUpper.toUpper = c.toUpper := by
  unfold Char.toUpper
  by_cases h : c.toNat ≥ 97 ∧ c.toNat ≤ 122
  · rw [if_pos h]
    have h2 : (Char.ofNat (c.toNat - 32)).toNat = c.toNat - 32 := by
      apply char_toNat_ofNat; omega
    rw [if_neg]; omega
  · rw [if_neg h, if_neg h]

theorem jsToUpper_idem (s : String) : jsToUpper (jsToUpper s) = jsToUpper s := by
  simp [jsToUpper, List.map_map, Function.comp_def, char_toUpper_idem]

/-! ## Data model

`Saree` is one unit of stock (the `newSaree` object literal built by
`handleAddSaree`, resp. the object pushed by `handleFileUpload`; the
manual-add path also records a `type` field, which the import path omits,
hence `type? : Option String` with `none` meaning "field absent").
`status` is kept as a `String` exactly as in the code (the intended values
are `"available"` and `"sold"`). -/

structure Saree where
  id : String
  code : String
  shopName : String
  shopCode : String
  type? : Option String
  cp : Rat
  mrp : Rat
  asp60 : Rat
  status : String
  dateAdded : String
deriving Repr, DecidableEq

/-- One completed transaction line (the object pushed by
`completeSaleTransaction`). -/
structure Sale where
  id : String
  sareeCode : String
  salePrice : Rat
  paymentMethod : String
  saleDate : String
deriving Repr, DecidableEq

/-- One cart line (`{ saree, selection, customPrice }` in `addToCart`):
a snapshot of the item plus a price-tier selection
(`"MRP"`, `"ASP60"` or `"CUSTOM"`).  `customPrice` holds the numeric parse
of the custom-price text field. -/
structure CartItem where
  saree : Saree
  selection : String
  customPrice : Option Rat
deriving Repr, DecidableEq

/-- The mutable state owned by the component: the `sarees`, `sales` and
`cart` `useState` collections plus the currently selected payment method. -/
structure PosState where
  sarees : List Saree
  sales : List Sale
  cart : List CartItem
  paymentMethod : String
deriving Repr, DecidableEq

/-! ## addItem (`handleAddSaree`, App.jsx lines 165-192) -/

/-- The manual-entry form contents (`FormData` of the add form): `code` is a
required field; the remaining fields may be absent/empty (`Option`), numeric
ones carrying their `parseFloat` result. -/
structure AddForm where
  code : String
  shopName : Option String
  shopCode : Option String
  type? : Option String
  cp : Option Rat
  mrp : Option Rat
  asp60 : Option Rat
deriving Repr, DecidableEq

inductive AddError where
  | DuplicateCode
deriving Repr, DecidableEq

/-- Embedding of `handleAddSaree`: upper-case the code, reject a duplicate (leaving the
collection unchanged), otherwise prepend the new item.  `newId` and `nowIso`
stand for `Date.now().toString()` and `new Date().toISOString()`. -/
def handleAddSaree (sarees : List Saree) (f : AddForm) (newId nowIso : String) :
    Except AddError (List Saree) :=
  let code := jsToUpper f.code
  if sarees.any (fun s => s.code = code) then
    .error .DuplicateCode
  else
    .ok ({ id := newId
           code := code
           shopName := jsOrStr f.shopName "Unknown Shop"
           shopCode := jsOrStr f.shopCode "N/A"
           type? := some (jsOrStr f.type? "Cotton")
           cp := jsOrNum f.cp
           mrp := jsOrNum f.mrp
           asp60 := jsOrNum f.asp60
           status := "available"
           dateAdded := nowIso } :: sarees)

/-- A sequence of `handleAddSaree` calls: a failed add leaves the collection
unchanged (the handler returns before mutating state). -/
def addItems (sarees : List Saree) (calls : List (AddForm × String × String)) :
    List Saree :=
  calls.foldl
    (fun acc c =>
      match handleAddSaree acc c.1 c.2.1 c.2.2 with
      | .ok l => l
      | .error _ => acc)
    sarees

/-- The collection invariant maintained by the app: codes are pairwise
distinct and already in normalised (upper-case) form — every creation path
(`handleAddSaree`, `handleFileUpload`) upper-cases the code it stores. -/
def codesOk (l : List Saree) : Prop :=
  (l.map (fun s => s.code)).Nodup ∧ ∀ s ∈ l, jsToUpper s.code = s.code

theorem addItems_cons (sarees : List Saree) (c : AddForm × String × String)
    (rest : List (AddForm × String × String)) :
    addItems sarees (c :: rest) =
      addItems
        (match handleAddSaree sarees c.1 c.2.1 c.2.2 with
         | .ok l => l
         | .error _ => sarees)
        rest := rfl

theorem codesOk_preserved (sarees : List Saree) (f : AddForm) (i d : String)
    (h : codesOk sarees) (l : List Saree)
    (hok : handleAddSaree sarees f i d = .ok l) : codesOk l := by
  unfold handleAddSaree at hok
  by_cases hdup : sarees.any (fun s => s.code = jsToUpper f.code)
  · simp [hdup] at hok
  · simp only [hdup, Bool.false_eq_true, if_neg, if_false] at hok
    obtain ⟨hnd, hnorm⟩ := h
    cases hok
    constructor
    · simp only [List.map_cons, List.nodup_cons]
      refine ⟨?_, hnd⟩
      intro hmem
      apply hdup
      rw [List.any_eq_true]
      simp only [List.mem_map] at hmem
      obtain ⟨s, hs, hcode⟩ := hmem
      exact ⟨s, hs, by simp [hcode]⟩
    · intro s hs
      rcases List.mem_cons.mp hs with h1 | h2
      · subst h1; exact jsToUpper_idem f.code
      · exact hnorm s h2

theorem codesOk_addItems (sarees : List Saree)
    (calls : List (AddForm × String × String)) (h : codesOk sarees) :
    codesOk (addItems sarees calls) := by
  induction calls generalizing sarees with
  | nil => exact h
  | cons c rest ih =>
    rw [addItems_cons]
    cases hE : handleAddSaree sarees c.1 c.2.1 c.2.2 with
    | ok l => exact ih l (codesOk_preserved sarees c.1 c.2.1 c.2.2 h l hE)
    | error e => exact ih sarees h

/-- C1.  For every sequence of `addItem` calls starting from a collection
satisfying the code invariant (pairwise-distinct, upper-case-normalised
codes — the form every collection the app builds has), no two items of the
resulting collection share the same normalised code; and an add whose
normalised code equals the code of some existing item fails with
`DuplicateCode` and leaves the collection unchanged (the next call of the
sequence proceeds from the untouched collection). -/
theorem c1_addItem_code_uniqueness (sarees : List Saree)
    (calls : List (AddForm × String × String)) (h : codesOk sarees) :
    ((addItems sarees calls).map (fun s => jsToUpper s.code)).Nodup ∧
    (∀ f i d, (∃ s ∈ sarees, s.code = jsToUpper f.code) →
      handleAddSaree sarees f i d = .error .DuplicateCode) ∧
    (∀ f i d rest, (∃ s ∈ sarees, s.code = jsToUpper f.code) →
      addItems sarees ((f, i, d) :: rest) = addItems sarees rest) := by
  refine ⟨?_, ?_, ?_⟩
  · obtain ⟨hnd, hnorm⟩ := codesOk_addItems sarees calls h
    have : ((addItems sarees calls).map (fun s => jsToUpper s.code)) =
        ((addItems sarees calls).map (fun s => s.code)) :=
      List.map_congr_left (fun s hs => hnorm s hs)
    rw [this]; exact hnd
  · intro f i d ⟨s, hs, hcode⟩
    unfold handleAddSaree
    have : sarees.any (fun s => s.code = jsToUpper f.code) = true := by
      rw [List.any_eq_true]; exact ⟨s, hs, by simp [hcode]⟩
    simp [this]
  · intro f i d rest ⟨s, hs, hcode⟩
    have herr : handleAddSaree sarees f i d = .error .DuplicateCode := by
      unfold handleAddSaree
      have : sarees.any (fun s => s.code = jsToUpper f.code) = true := by
        rw [List.any_eq_true]; exact ⟨s, hs, by simp [hcode]⟩
      simp [this]
    rw [addItems_cons, herr]

/-! ## checkout (`completeSaleTransaction`, App.jsx lines 280-312) -/

/-- The effective price of one cart line (the `finalPrice` conditional):
list price for `"MRP"`, alternate price for `"ASP60"`, otherwise
`parseFloat(customPrice) || 0`. -/
def cartItemPrice (ci : CartItem) : Rat :=
  if ci.selection = "MRP" then ci.saree.mrp
  else if ci.selection = "ASP60" then ci.saree.asp60
  else jsOrNum ci.customPrice

/-- Marking step: `findIndex` + in-place update at that index, expressed recursively:
mark the first item carrying `code` as sold and leave the rest alone
(when no item matches, `findIndex` returns `-1` and the loop body skips). -/
def markSoldFirst (code : String) : List Saree → List Saree
  | [] => []
  | s :: rest =>
    if s.code = code then { s with status := "sold" } :: rest
    else s :: markSoldFirst code rest

/-- Shorthand for `{ ...saree, status: 'sold' }`. -/
def setSold (s : Saree) : Saree := { s with status := "sold" }

/-- The batch of Sale records pushed by the checkout loop, in cart order;
`k` threads the running index of the id generator (`Date.now() + random`
modelled as the injected `newId`). -/
def checkoutSales (pm now : String) (newId : Nat → String) :
    List CartItem → Nat → List Sale
  | [], _ => []
  | ci :: rest, k =>
    { id := newId k
      sareeCode := ci.saree.code
      salePrice := cartItemPrice ci
      paymentMethod := pm
      saleDate := now } :: checkoutSales pm now newId rest (k + 1)

/-- Embedding of `completeSaleTransaction`: early-return on an empty cart; otherwise one
pass over the cart marking each referenced item sold (first match by code)
and accumulating one Sale per line with the shared timestamp `now` and the
currently selected payment method; new Sales are prepended newest-first,
the cart is cleared and the payment method reset to the `'UPI'` default. -/
def completeSaleTransaction (st : PosState) (now : String) (newId : Nat → String) :
    PosState :=
  if st.cart = [] then st
  else
    let res := st.cart.foldl
      (fun (acc : List Saree × List Sale) ci =>
        (markSoldFirst ci.saree.code acc.1,
         acc.2 ++ [{ id := newId acc.2.length
                     sareeCode := ci.saree.code
                     salePrice := cartItemPrice ci
                     paymentMethod := st.paymentMethod
                     saleDate := now }]))
      (st.sarees, [])
    { sarees := res.1
      sales := res.2 ++ st.sales
      cart := []
      paymentMethod := "UPI" }

theorem checkout_foldl (pm now : String) (newId : Nat → String)
    (cart : List CartItem) (sarees : List Saree) (sales : List Sale) :
    cart.foldl
      (fun (acc : List Saree × List Sale) ci =>
        (markSoldFirst ci.saree.code acc.1,
         acc.2 ++ [{ id := newId acc.2.length
                     sareeCode := ci.saree.code
                     salePrice := cartItemPrice ci
                     paymentMethod := pm
                     saleDate := now }]))
      (sarees, sales) =
    (cart.foldl (fun a ci => markSoldFirst ci.saree.code a) sarees,
     sales ++ checkoutSales pm now newId cart sales.length) := by
  induction cart generalizing sarees sales with
  | nil => simp [checkoutSales]
  | cons ci rest ih =>
    simp only [List.foldl_cons, ih, checkoutSales, List.length_append,
      List.length_cons, List.length_nil, List.append_assoc, List.cons_append,
      List.nil_append, Nat.add_comm]

theorem markSoldFirst_eq_map (code : String) (l : List Saree)
    (h : (l.map (fun s => s.code)).Nodup) :
    markSoldFirst code l = l.map (fun s => if s.code = code then setSold s else s) := by
  induction l with
  | nil => rfl
  | cons s rest ih =>
    simp only [List.map_cons, List.nodup_cons, List.mem_map] at h
    obtain ⟨hnotin, hnd⟩ := h
    by_cases hc : s.code = code
    · have h1 : ∀ x ∈ rest, (if x.code = code then setSold x else x) = x := by
        intro x hx
        rw [if_neg]
        intro hxc
        exact hnotin ⟨x, hx, by rw [hxc, hc]⟩
      have hrest : rest.map (fun x => if x.code = code then setSold x else x) = rest := by
        rw [List.map_congr_left h1]
        exact List.map_id rest
      simp only [markSoldFirst, List.map_cons]
      rw [if_pos hc, if_pos hc, hrest]
      rfl
    · simp only [markSoldFirst, if_neg hc, List.map_cons, ih hnd]

theorem saree_code_mark (s : Saree) (code : String) :
    (if s.code = code then setSold s else s).code = s.code := by
  by_cases h : s.code = code <;> simp [h, setSold]

theorem foldl_markSold_eq_map (cart : List CartItem) (l : List Saree)
    (h : (l.map (fun s => s.code)).Nodup) :
    cart.foldl (fun a ci => markSoldFirst ci.saree.code a) l =
      l.map (fun s =>
        if s.code ∈ cart.map (fun ci => ci.saree.code) then setSold s else s) := by
  induction cart generalizing l with
  | nil => simp
  | cons ci rest ih =>
    simp only [List.foldl_cons]
    rw [markSoldFirst_eq_map ci.saree.code l h]
    have hcodes :
        ((l.map (fun s => if s.code = ci.saree.code then setSold s else s)).map
          (fun s => s.code)) = l.map (fun s => s.code) := by
      rw [List.map_map]
      exact List.map_congr_left (fun s _ => saree_code_mark s ci.saree.code)
    rw [ih _ (by rw [hcodes]; exact h), List.map_map]
    apply List.map_congr_left
    intro s _
    simp only [Function.comp_apply, List.map_cons, List.mem_cons, saree_code_mark]
    by_cases hc : s.code = ci.saree.code
    · by_cases hm : s.code ∈ rest.map (fun ci => ci.saree.code) <;>
        simp [hc, hm, setSold]
    · by_cases hm : s.code ∈ rest.map (fun ci => ci.saree.code) <;>
        simp [hc, hm]

theorem checkoutSales_length (pm now : String) (newId : Nat → String)
    (cart : List CartItem) (k : Nat) :
    (checkoutSales pm now newId cart k).length = cart.length := by
  induction cart generalizing k with
  | nil => rfl
  | cons ci rest ih => simp [checkoutSales, ih]

theorem checkoutSales_codes (pm now : String) (newId : Nat → String)
    (cart : List CartItem) (k : Nat) :
    (checkoutSales pm now newId cart k).map (fun sl => sl.sareeCode) =
      cart.map (fun ci => ci.saree.code) := by
  induction cart generalizing k with
  | nil => rfl
  | cons ci rest ih => simp [checkoutSales, ih]

theorem checkoutSales_shared (pm now : String) (newId : Nat → String)
    (cart : List CartItem) (k : Nat) :
    ∀ sl ∈ checkoutSales pm now newId cart k,
      sl.saleDate = now ∧ sl.paymentMethod = pm := by
  induction cart generalizing k with
  | nil => intro sl h; cases h
  | cons ci rest ih =>
    intro sl h
    rcases List.mem_cons.mp h with h1 | h2
    · subst h1; exact ⟨rfl, rfl⟩
    · exact ih (k + 1) sl h2

theorem completeSale_unfold (st : PosState) (now : String) (newId : Nat → String)
    (h : st.cart ≠ []) :
    completeSaleTransaction st now newId =
      { sarees := st.cart.foldl (fun a ci => markSoldFirst ci.saree.code a) st.sarees
        sales := checkoutSales st.paymentMethod now newId st.cart 0 ++ st.sales
        cart := []
        paymentMethod := "UPI" } := by
  unfold completeSaleTransaction
  rw [if_neg h, checkout_foldl]
  simp

/-- C2.  For a cart of N distinct available items (pairwise-distinct codes,
each referencing an available item of the collection), checkout produces
exactly N new Sales — one per cart line, in cart order, all sharing the
same `saleDate` string and the same `paymentMethod` — prepended newest-first
to the sales collection; exactly the items whose codes are in the cart are
marked sold (all others are untouched); the cart is empty afterwards; and a
checkout on an empty cart changes neither the item collection, the sales
collection, nor the cart. -/
theorem c2_checkout_batch (st : PosState) (now : String) (newId : Nat → String)
    (hnd : (st.sarees.map (fun s => s.code)).Nodup)
    (hcart : st.cart ≠ [])
    (hdistinct : (st.cart.map (fun ci => ci.saree.code)).Nodup)
    (havail : ∀ ci ∈ st.cart,
      ∃ s ∈ st.sarees, s.code = ci.saree.code ∧ s.status = "available") :
    ((completeSaleTransaction st now newId).sales =
        checkoutSales st.paymentMethod now newId st.cart 0 ++ st.sales ∧
      (checkoutSales st.paymentMethod now newId st.cart 0).length = st.cart.length ∧
      (checkoutSales st.paymentMethod now newId st.cart 0).map
          (fun sl => sl.sareeCode) = st.cart.map (fun ci => ci.saree.code) ∧
      ∀ sl ∈ checkoutSales st.paymentMethod now newId st.cart 0,
        sl.saleDate = now ∧ sl.paymentMethod = st.paymentMethod) ∧
    (completeSaleTransaction st now newId).sarees =
      st.sarees.map (fun s =>
        if s.code ∈ st.cart.map (fun ci => ci.saree.code) then setSold s else s) ∧
    (completeSaleTransaction st now newId).cart = [] ∧
    (∀ st' : PosState, st'.cart = [] →
      completeSaleTransaction st' now newId = st') := by
  have hunf := completeSale_unfold st now newId hcart
  refine ⟨⟨?_, checkoutSales_length _ _ _ _ _, checkoutSales_codes _ _ _ _ _,
    checkoutSales_shared _ _ _ _ _⟩, ?_, ?_, ?_⟩
  · rw [hunf]
  · rw [hunf]
    exact foldl_markSold_eq_map st.cart st.sarees hnd
  · rw [hunf]
  · intro st' h
    unfold completeSaleTransaction
    rw [if_pos h]

/-! ## processReturn (App.jsx lines 232-255) -/

inductive ReturnError where
  | NotFound
  | AlreadyAvailable
deriving Repr, DecidableEq

/-- Shorthand for `{ ...saree, status: 'available' }`. -/
def setAvailable (s : Saree) : Saree := { s with status := "available" }

/-- The `findIndex`-then-update core of `processReturn`, expressed
recursively over the collection: `findIndex === -1` → `NotFound`; the found
item already `'available'` → `AlreadyAvailable`; otherwise replace the found
item by its `'available'` copy. -/
def returnFirst (code : String) : List Saree → Except ReturnError (List Saree)
  | [] => .error .NotFound
  | s :: rest =>
    if s.code = code then
      if s.status = "available" then .error .AlreadyAvailable
      else .ok ({ s with status := "available" } :: rest)
    else
      match returnFirst code rest with
      | .ok l => .ok (s :: l)
      | .error e => .error e

/-- Embedding of `processReturn`: on success, store the updated collection and delete
every Sale whose `sareeCode` equals the scanned code; cart and payment
method are untouched. -/
def processReturn (st : PosState) (code : String) : Except ReturnError PosState :=
  match returnFirst code st.sarees with
  | .error e => .error e
  | .ok l =>
    .ok { st with
          sarees := l
          sales := st.sales.filter (fun sl => sl.sareeCode ≠ code) }

theorem saree_code_return (s : Saree) (code : String) :
    (if s.code = code then setAvailable s else s).code = s.code := by
  by_cases h : s.code = code <;> simp [h, setAvailable]

theorem returnFirst_notFound (code : String) (l : List Saree)
    (h : ∀ s ∈ l, s.code ≠ code) : returnFirst code l = .error .NotFound := by
  induction l with
  | nil => rfl
  | cons s rest ih =>
    simp only [returnFirst, if_neg (h s (List.mem_cons_self s rest)),
      ih (fun x hx => h x (List.mem_cons_of_mem s hx))]

theorem returnFirst_alreadyAvailable (code : String) (l : List Saree) (s : Saree)
    (hnd : (l.map (fun x => x.code)).Nodup) (hs : s ∈ l) (hc : s.code = code)
    (ha : s.status = "available") :
    returnFirst code l = .error .AlreadyAvailable := by
  induction l with
  | nil => cases hs
  | cons t rest ih =>
    simp only [List.map_cons, List.nodup_cons, List.mem_map] at hnd
    obtain ⟨hnotin, hnd'⟩ := hnd
    rcases List.mem_cons.mp hs with h1 | h2
    · subst h1
      simp only [returnFirst, if_pos hc, if_pos ha]
    · have ht : t.code ≠ code := by
        intro h
        exact hnotin ⟨s, h2, by rw [hc, h]⟩
      simp only [returnFirst, if_neg ht, ih hnd' h2]


theorem returnFirst_ok_map (code : String) (l : List Saree) (s : Saree)
    (hnd : (l.map (fun x => x.code)).Nodup) (hs : s ∈ l) (hc : s.code = code)
    (hna : s.status ≠ "available") :
    returnFirst code l =
      .ok (l.map (fun x => if x.code = code then setAvailable x else x)) := by
  induction l with
  | nil => cases hs
  | cons t rest ih =>
    simp only [List.map_cons, List.nodup_cons, List.mem_map] at hnd
    obtain ⟨hnotin, hnd'⟩ := hnd
    rcases List.mem_cons.mp hs with h1 | h2
    · subst h1
      have h1 : ∀ x ∈ rest, (if x.code = code then setAvailable x else x) = x := by
        intro x hx
        rw [if_neg]
        intro hxc
        exact hnotin ⟨x, hx, by rw [hxc, hc]⟩
      have hrest : rest.map (fun x => if x.code = code then setAvailable x else x)
          = rest := by
        rw [List.map_congr_left h1]
        exact List.map_id rest
      simp only [returnFirst, if_pos hc, if_neg hna, List.map_cons]
      rw [hrest]
      rfl
    · have ht : t.code ≠ code := by
        intro h
        exact hnotin ⟨s, h2, by rw [hc, h]⟩
      simp only [returnFirst, if_neg ht, ih hnd' h2, List.map_cons]

theorem returnFirst_repeat (code : String) (l l' : List Saree)
    (h : returnFirst code l = .ok l') :
    returnFirst code l' = .error .AlreadyAvailable := by
  induction l generalizing l' with
  | nil => cases h
  | cons t rest ih =>
    by_cases ht : t.code = code
    · by_cases ha : t.status = "available"
      · simp only [returnFirst, if_pos ht, if_pos ha] at h
        exact Except.noConfusion h
      · simp only [returnFirst, if_pos ht, if_neg ha, Except.ok.injEq] at h
        subst h
        simp [returnFirst, ht]
    · simp only [returnFirst, if_neg ht] at h
      cases hR : returnFirst code rest with
      | error e => rw [hR] at h; cases h
      | ok l'' =>
        rw [hR] at h
        simp only [Except.ok.injEq] at h
        subst h
        simp only [returnFirst, if_neg ht, ih l'' hR]

/-- C3.  `processReturn` returns `NotFound` when no item carries the scanned
code, `AlreadyAvailable` when the item with that code is already available;
otherwise it sets that item's status back to `'available'` (all other items
untouched) and deletes every Sale whose `sareeCode` equals the code, leaving
cart and payment method alone, and an immediately repeated `processReturn`
of the same code then yields `AlreadyAvailable`; in particular, after a
checkout of a one-line cart holding an available item, `processReturn` of
its code succeeds, restores `status = 'available'`, removes every Sale
referencing the code, and a second `processReturn` yields
`AlreadyAvailable`. -/
theorem c3_processReturn (st : PosState) (c0 : String) (s1 s2 : Saree)
    (ci : CartItem) (now : String) (newId : Nat → String)
    (hnd : (st.sarees.map (fun x => x.code)).Nodup)
    (h0 : ∀ s ∈ st.sarees, s.code ≠ c0)
    (hs1 : s1 ∈ st.sarees) (ha1 : s1.status = "available")
    (hs2 : s2 ∈ st.sarees) (ha2 : s2.status ≠ "available")
    (hci : ci.saree.code = s1.code) :
    processReturn st c0 = .error .NotFound ∧
    processReturn st s1.code = .error .AlreadyAvailable ∧
    processReturn st s2.code =
      .ok { st with
            sarees := st.sarees.map
              (fun x => if x.code = s2.code then setAvailable x else x)
            sales := st.sales.filter (fun sl => sl.sareeCode ≠ s2.code) } ∧
    (∀ st', processReturn st s2.code = .ok st' →
      processReturn st' s2.code = .error .AlreadyAvailable) ∧
    (∃ st₃,
      processReturn (completeSaleTransaction { st with cart := [ci] } now newId)
          s1.code = .ok st₃ ∧
      (∀ x ∈ st₃.sarees, x.code = s1.code → x.status = "available") ∧
      (∀ sl ∈ st₃.sales, sl.sareeCode ≠ s1.code) ∧
      processReturn st₃ s1.code = .error .AlreadyAvailable) := by
  refine ⟨?_, ?_, ?_, ?_, ?_⟩
  · unfold processReturn
    rw [returnFirst_notFound c0 st.sarees h0]
  · unfold processReturn
    rw [returnFirst_alreadyAvailable s1.code st.sarees s1 hnd hs1 rfl ha1]
  · unfold processReturn
    rw [returnFirst_ok_map s2.code st.sarees s2 hnd hs2 rfl ha2]
  · intro st' h
    unfold processReturn at h
    cases hR : returnFirst s2.code st.sarees with
    | error e => rw [hR] at h; cases h
    | ok l =>
      rw [hR] at h
      simp only [Except.ok.injEq] at h
      subst h
      unfold processReturn
      rw [returnFirst_repeat s2.code st.sarees l hR]
  · have hcart : ({ st with cart := [ci] } : PosState).cart ≠ [] := by simp
    have hunf := completeSale_unfold { st with cart := [ci] } now newId hcart
    have hmark : markSoldFirst ci.saree.code st.sarees = st.sarees.map
        (fun s => if s.code = ci.saree.code then setSold s else s) :=
      markSoldFirst_eq_map ci.saree.code st.sarees hnd
    have hunf2 : completeSaleTransaction { st with cart := [ci] } now newId =
        { sarees := st.sarees.map
            (fun s => if s.code = ci.saree.code then setSold s else s)
          sales := checkoutSales st.paymentMethod now newId [ci] 0 ++ st.sales
          cart := []
          paymentMethod := "UPI" } := by
      rw [hunf, ← hmark]
      rfl
    have hnd₂ : ((st.sarees.map
        (fun s => if s.code = ci.saree.code then setSold s else s)).map
          (fun x => x.code)).Nodup := by
      rw [List.map_map]
      have hcomp : ((fun x : Saree => x.code) ∘ fun s =>
          if s.code = ci.saree.code then setSold s else s) =
          fun s : Saree => s.code := by
        funext s
        exact saree_code_mark s ci.saree.code
      rw [hcomp]
      exact hnd
    have hmem₂ : setSold s1 ∈ st.sarees.map
        (fun s => if s.code = ci.saree.code then setSold s else s) := by
      have heq : setSold s1 = (fun s =>
          if s.code = ci.saree.code then setSold s else s) s1 := by
        show setSold s1 = if s1.code = ci.saree.code then setSold s1 else s1
        rw [if_pos (show s1.code = ci.saree.code by rw [hci])]
      rw [heq]
      exact List.mem_map_of_mem _ hs1
    have hcode₂ : (setSold s1).code = s1.code := rfl
    have hna₂ : (setSold s1).status ≠ "available" := by
      simp [setSold]
    have hok := returnFirst_ok_map s1.code
      (st.sarees.map (fun s => if s.code = ci.saree.code then setSold s else s))
      (setSold s1) hnd₂ hmem₂ hcode₂ hna₂
    rw [hunf2]
    refine ⟨{ sarees := (st.sarees.map
                (fun s => if s.code = ci.saree.code then setSold s else s)).map
                (fun x => if x.code = s1.code then setAvailable x else x)
              sales := (checkoutSales st.paymentMethod now newId [ci] 0
                ++ st.sales).filter (fun sl => sl.sareeCode ≠ s1.code)
              cart := []
              paymentMethod := "UPI" },
      ?_, ?_, ?_, ?_⟩
    · simp only [processReturn, hok]
    · intro x hx hxc
      simp only [List.mem_map] at hx
      obtain ⟨y, hy, hxy⟩ := hx
      by_cases hyc : y.code = s1.code
      · rw [← hxy, if_pos hyc]
        rfl
      · rw [← hxy, if_neg hyc] at hxc
        exact absurd hxc hyc
    · intro sl hsl
      have hmem := List.of_mem_filter hsl
      simpa using hmem
    · have hrep := returnFirst_repeat s1.code
        (st.sarees.map (fun s => if s.code = ci.saree.code then setSold s else s))
        _ hok
      simp only [processReturn, hrep]

/-! ## Bulk import (`handleFileUpload`, App.jsx lines 401-440)

The CSV text has already been split into rows and cells by the
`parseCSVRow` wire-format parser (§6 of the spec treats that parser as an
external collaborator feeding the core); the loop below is the accumulate
phase over the parsed data rows (row 0, the header, excluded).  A blank
line is skipped by the source before parsing; here it surfaces as a row
whose derived code is empty, which the loop skips the same way. -/

/-- The resolved optional column indices (`findIndex` results); `none`
models `-1`.  The required product-code column is passed separately. -/
structure ColMap where
  shopName : Option Nat
  shopCode : Option Nat
  cp : Option Nat
  mrp : Option Nat
  asp60 : Option Nat
  status : Option Nat
deriving Repr, DecidableEq

/-- Cell access `idx !== -1 && values[idx]` : the cell at an optional column index,
`none` when the column is absent, the cell is out of range for this row, or
the cell text is empty (falsy in JS). -/
def cellAt (row : List String) (idx : Option Nat) : Option String :=
  match idx with
  | none => none
  | some i =>
    match row.get? i with
    | none => none
    | some v => if v = "" then none else some v

/-- Code derivation `values[codeIdx]?.replace(/"/g, '').toUpperCase()` with the `!code`
skip: `none` when the cell is missing or strips to the empty string. -/
def rowCode (row : List String) (codeIdx : Nat) : Option String :=
  match row.get? codeIdx with
  | none => none
  | some v =>
    let c := jsToUpper (stripQuotes v)
    if c = "" then none else some c

/-- The status derivation of the import loop:
`statusStr = statusIdx !== -1 && values[statusIdx] ?
values[statusIdx].toLowerCase().trim() : 'available'` followed by
`if (!statusStr.includes('sold')) statusStr = 'available'`.
Note the code keeps the whole lowercased text when it contains `"sold"`
(it never replaces it by the literal `"sold"`). -/
def rowStatus (row : List String) (statusIdx : Option Nat) : String :=
  let statusStr :=
    match cellAt row statusIdx with
    | some v => jsTrim (jsToLower v)
    | none => "available"
  if jsIncludes statusStr "sold" = false then "available" else statusStr

/-- The item object pushed for one accepted row.  `parseNum` models
`parseFloat` composed with the `replace(/[^\d.-]/g, '')` strip (`none` =
`NaN`); `rid` models `Date.now().toString() + i`. -/
def importRow (row : List String) (cm : ColMap) (code rid dateAdded : String)
    (parseNum : String → Option Rat) : Saree :=
  { id := rid
    code := code
    shopName :=
      match cellAt row cm.shopName with
      | some v => stripQuotes v
      | none => "Unknown Shop"
    shopCode :=
      match cellAt row cm.shopCode with
      | some v => stripQuotes v
      | none => "N/A"
    type? := none
    cp :=
      match cellAt row cm.cp with
      | some v => jsOrNum (parseNum v)
      | none => 0
    mrp :=
      match cellAt row cm.mrp with
      | some v => jsOrNum (parseNum v)
      | none => 0
    asp60 :=
      match cellAt row cm.asp60 with
      | some v => jsOrNum (parseNum v)
      | none => 0
    status := rowStatus row cm.status
    dateAdded := dateAdded }

/-- The `for` loop of `handleFileUpload`: skip rows without a derived code;
count (and skip) a row whose code already exists in current stock or among
the rows accepted earlier in this same batch; otherwise push the built item
and bump `addedCount`.  Accumulators: `newSarees`, `addedCount`,
`duplicateCount`, and the running row index `i` feeding the id. -/
def importLoop (sarees : List Saree) (codeIdx : Nat) (cm : ColMap)
    (parseNum : String → Option Rat) (mkId : Nat → String) (dateAdded : String) :
    List (List String) → List Saree → Nat → Nat → Nat → List Saree × Nat × Nat
  | [], newSarees, added, dups, _ => (newSarees, added, dups)
  | row :: rest, newSarees, added, dups, i =>
    match rowCode row codeIdx with
    | none => importLoop sarees codeIdx cm parseNum mkId dateAdded rest
        newSarees added dups (i + 1)
    | some code =>
      if sarees.any (fun s => s.code = code) ||
          newSarees.any (fun s => s.code = code) then
        importLoop sarees codeIdx cm parseNum mkId dateAdded rest
          newSarees added (dups + 1) (i + 1)
      else
        importLoop sarees codeIdx cm parseNum mkId dateAdded rest
          (newSarees ++ [importRow row cm code (mkId i) dateAdded parseNum])
          (added + 1) dups (i + 1)

/-- The whole accumulate phase: start with empty accumulators at row
index 1 and return `(newSarees, addedCount, duplicateCount)`. -/
def importBatch (sarees : List Saree) (rows : List (List String)) (codeIdx : Nat)
    (cm : ColMap) (parseNum : String → Option Rat) (mkId : Nat → String)
    (dateAdded : String) : List Saree × Nat × Nat :=
  importLoop sarees codeIdx cm parseNum mkId dateAdded rows [] 0 0 1

/-- Commit step `if (addedCount > 0) setSarees(prev => [...newSarees, ...prev])` : the
accepted rows are prepended to the collection as one batch; with nothing
accepted the collection is untouched. -/
def applyImport (sarees : List Saree) (rows : List (List String)) (codeIdx : Nat)
    (cm : ColMap) (parseNum : String → Option Rat) (mkId : Nat → String)
    (dateAdded : String) : List Saree :=
  let r := importBatch sarees rows codeIdx cm parseNum mkId dateAdded
  if 0 < r.2.1 then r.1 ++ sarees else sarees

theorem importRow_code (row : List String) (cm : ColMap)
    (code rid dateAdded : String) (parseNum : String → Option Rat) :
    (importRow row cm code rid dateAdded parseNum).code = code := rfl

theorem importLoop_inv (sarees : List Saree) (codeIdx : Nat) (cm : ColMap)
    (parseNum : String → Option Rat) (mkId : Nat → String) (dateAdded : String)
    (rows : List (List String)) (newSarees : List Saree) (added dups i : Nat)
    (h1 : (newSarees.map (fun s => s.code)).Nodup)
    (h2 : ∀ s ∈ newSarees, ¬∃ t ∈ sarees, t.code = s.code)
    (h3 : added = newSarees.length) :
    ((importLoop sarees codeIdx cm parseNum mkId dateAdded rows
        newSarees added dups i).1.map (fun s => s.code)).Nodup ∧
    (∀ s ∈ (importLoop sarees codeIdx cm parseNum mkId dateAdded rows
        newSarees added dups i).1, ¬∃ t ∈ sarees, t.code = s.code) ∧
    (importLoop sarees codeIdx cm parseNum mkId dateAdded rows
        newSarees added dups i).2.1 =
      (importLoop sarees codeIdx cm parseNum mkId dateAdded rows
        newSarees added dups i).1.length ∧
    (importLoop sarees codeIdx cm parseNum mkId dateAdded rows
        newSarees added dups i).2.1 +
      (importLoop sarees codeIdx cm parseNum mkId dateAdded rows
        newSarees added dups i).2.2 =
      added + dups +
        (rows.filter (fun row => (rowCode row codeIdx).isSome)).length := by
  induction rows generalizing newSarees added dups i with
  | nil =>
    simp only [importLoop, List.filter_nil, List.length_nil]
    exact ⟨h1, h2, h3, by omega⟩
  | cons row rest ih =>
    cases hc : rowCode row codeIdx with
    | none =>
      simp only [importLoop, hc, List.filter_cons, Option.isSome_none,
        Bool.false_eq_true, if_neg, if_false]
      have := ih newSarees added dups (i + 1) h1 h2 h3
      simpa using this
    | some code =>
      by_cases hdup : (sarees.any (fun s => s.code = code) ||
          newSarees.any (fun s => s.code = code)) = true
      · simp only [importLoop, hc, hdup, if_true, List.filter_cons, Option.isSome_some,
          if_pos, List.length_cons]
        have := ih newSarees added (dups + 1) (i + 1) h1 h2 h3
        refine ⟨this.1, this.2.1, this.2.2.1, ?_⟩
        rw [this.2.2.2]
        omega
      · have hnotin : ¬(newSarees.any (fun s => s.code = code) = true) := by
          intro hx
          exact hdup (by simp [hx])
        have hnotst : ¬(sarees.any (fun s => s.code = code) = true) := by
          intro hx
          exact hdup (by simp [hx])
        simp only [importLoop, hc, hdup, Bool.false_eq_true, if_neg, if_false,
          List.filter_cons, Option.isSome_some, if_pos, List.length_cons]
        have hnd' : ((newSarees ++
            [importRow row cm code (mkId i) dateAdded parseNum]).map
              (fun s => s.code)).Nodup := by
          rw [List.map_append]
          simp only [List.map_cons, List.map_nil, importRow_code]
          rw [List.nodup_append]
          refine ⟨h1, List.nodup_singleton code, ?_⟩
          intro c hcmem
          simp only [List.mem_singleton]
          intro hceq
          subst hceq
          apply hnotin
          rw [List.any_eq_true]
          simp only [List.mem_map] at hcmem
          obtain ⟨s, hsmem, hscode⟩ := hcmem
          exact ⟨s, hsmem, by simp [hscode]⟩
        have h2' : ∀ s ∈ newSarees ++
            [importRow row cm code (mkId i) dateAdded parseNum],
            ¬∃ t ∈ sarees, t.code = s.code := by
          intro s hs
          rcases List.mem_append.mp hs with hL | hR
          · exact h2 s hL
          · simp only [List.mem_singleton] at hR
            subst hR
            rw [importRow_code]
            intro ⟨t, htmem, htcode⟩
            apply hnotst
            rw [List.any_eq_true]
            exact ⟨t, htmem, by simp [htcode]⟩
        have h3' : added + 1 = (newSarees ++
            [importRow row cm code (mkId i) dateAdded parseNum]).length := by
          simp [h3]
        have := ih _ (added + 1) dups (i + 1) hnd' h2' h3'
        refine ⟨this.1, this.2.1, this.2.2.1, ?_⟩
        rw [this.2.2.2]
        omega

theorem importLoop_order (sarees : List Saree) (codeIdx : Nat) (cm : ColMap)
    (parseNum : String → Option Rat) (mkId : Nat → String) (dateAdded : String)
    (rows : List (List String)) (newSarees : List Saree) (added dups i : Nat) :
    ∃ t, (importLoop sarees codeIdx cm parseNum mkId dateAdded rows
        newSarees added dups i).1.map (fun s => s.code) =
      newSarees.map (fun s => s.code) ++ t ∧
      t.Sublist (rows.filterMap (fun row => rowCode row codeIdx)) := by
  induction rows generalizing newSarees added dups i with
  | nil =>
    exact ⟨[], by simp [importLoop]⟩
  | cons row rest ih =>
    cases hc : rowCode row codeIdx with
    | none =>
      obtain ⟨t, ht1, ht2⟩ := ih newSarees added dups (i + 1)
      refine ⟨t, ?_, ?_⟩
      · simp only [importLoop, hc]
        exact ht1
      · rw [@List.filterMap_cons_none (List String) String
          (fun r => rowCode r codeIdx) row rest hc]
        exact ht2
    | some code =>
      by_cases hdup : (sarees.any (fun s => s.code = code) ||
          newSarees.any (fun s => s.code = code)) = true
      · obtain ⟨t, ht1, ht2⟩ := ih newSarees added (dups + 1) (i + 1)
        refine ⟨t, ?_, ?_⟩
        · simp only [importLoop, hc, hdup, if_true]
          exact ht1
        · rw [@List.filterMap_cons_some (List String) String
            (fun r => rowCode r codeIdx) row rest code hc]
          exact ht2.cons code
      · obtain ⟨t, ht1, ht2⟩ := ih
          (newSarees ++ [importRow row cm code (mkId i) dateAdded parseNum])
          (added + 1) dups (i + 1)
        refine ⟨code :: t, ?_, ?_⟩
        · simp only [importLoop, hc, hdup, Bool.false_eq_true, if_neg, if_false]
          rw [ht1, List.map_append]
          simp [importRow_code]
        · rw [@List.filterMap_cons_some (List String) String
            (fun r => rowCode r codeIdx) row rest code hc]
          exact ht2.cons₂ code

/-- C4.  Import dedup: unconditionally, the batch of accepted rows contains
at most one item per code and no item whose code already exists in current
stock, `addedCount` equals the number of accepted items, and every row with
a derived code is either accepted or counted as a duplicate
(`addedCount + duplicateCount` = number of coded rows).  Concretely, a batch
of two rows deriving the same fresh code accepts exactly the first row and
counts exactly one duplicate, and a one-row batch whose code already exists
in stock adds nothing and counts one duplicate — dedup is checked both
against existing stock and against rows accepted earlier in the batch. -/
theorem c4_import_dedup (sarees : List Saree) (rows : List (List String))
    (codeIdx : Nat) (cm : ColMap) (parseNum : String → Option Rat)
    (mkId : Nat → String) (dateAdded : String)
    (r1 r2 r3 : List String) (c c3 : String)
    (hc1 : rowCode r1 codeIdx = some c) (hc2 : rowCode r2 codeIdx = some c)
    (hfresh : ∀ t ∈ sarees, t.code ≠ c)
    (hc3 : rowCode r3 codeIdx = some c3)
    (hstock : ∃ t ∈ sarees, t.code = c3) :
    (((importBatch sarees rows codeIdx cm parseNum mkId dateAdded).1.map
        (fun s => s.code)).Nodup ∧
      (∀ s ∈ (importBatch sarees rows codeIdx cm parseNum mkId dateAdded).1,
        ¬∃ t ∈ sarees, t.code = s.code) ∧
      (importBatch sarees rows codeIdx cm parseNum mkId dateAdded).2.1 =
        (importBatch sarees rows codeIdx cm parseNum mkId dateAdded).1.length ∧
      (importBatch sarees rows codeIdx cm parseNum mkId dateAdded).2.1 +
        (importBatch sarees rows codeIdx cm parseNum mkId dateAdded).2.2 =
        (rows.filter (fun row => (rowCode row codeIdx).isSome)).length) ∧
    importBatch sarees [r1, r2] codeIdx cm parseNum mkId dateAdded =
      ([importRow r1 cm c (mkId 1) dateAdded parseNum], 1, 1) ∧
    importBatch sarees [r3] codeIdx cm parseNum mkId dateAdded = ([], 0, 1) := by
  have hA : sarees.any (fun s => s.code = c) = false := by
    rw [List.any_eq_false]
    intro t ht
    simpa using hfresh t ht
  have hA3 : sarees.any (fun s => s.code = c3) = true := by
    rw [List.any_eq_true]
    obtain ⟨t, ht, htc⟩ := hstock
    exact ⟨t, ht, by simpa using htc⟩
  refine ⟨?_, ?_, ?_⟩
  · have := importLoop_inv sarees codeIdx cm parseNum mkId dateAdded rows [] 0 0 1
      (by simp) (by simp) (by simp)
    simpa [importBatch] using this
  · have hsecond :
        ([importRow r1 cm c (mkId 1) dateAdded parseNum].any
          (fun s => s.code = c)) = true := by
      simp [importRow_code]
    simp only [importBatch, importLoop, hc1, hc2, hA, List.any_nil, Bool.or_self,
      Bool.false_eq_true, if_neg, if_false, Bool.or_false, hsecond, Bool.or_true,
      if_true, List.nil_append]
  · simp only [importBatch, importLoop, hc3, hA3, Bool.true_or, if_true]

/-- C5.  All accepted rows of an import are prepended to the collection as
one single batch: when anything was accepted the new collection is exactly
`newSarees ++ old` (so the first `newSarees.length` entries are the batch
and everything after it is the untouched, order-preserved old collection,
with no interleaving), and the accepted items appear in input row order
(their code sequence is a sublist of the row-order code sequence of the
batch). -/
theorem c5_import_prepend_order (sarees : List Saree) (rows : List (List String))
    (codeIdx : Nat) (cm : ColMap) (parseNum : String → Option Rat)
    (mkId : Nat → String) (dateAdded : String)
    (hadded : 0 < (importBatch sarees rows codeIdx cm parseNum mkId dateAdded).2.1) :
    applyImport sarees rows codeIdx cm parseNum mkId dateAdded =
      (importBatch sarees rows codeIdx cm parseNum mkId dateAdded).1 ++ sarees ∧
    (applyImport sarees rows codeIdx cm parseNum mkId dateAdded).take
        (importBatch sarees rows codeIdx cm parseNum mkId dateAdded).1.length =
      (importBatch sarees rows codeIdx cm parseNum mkId dateAdded).1 ∧
    (applyImport sarees rows codeIdx cm parseNum mkId dateAdded).drop
        (importBatch sarees rows codeIdx cm parseNum mkId dateAdded).1.length =
      sarees ∧
    ((importBatch sarees rows codeIdx cm parseNum mkId dateAdded).1.map
        (fun s => s.code)).Sublist
      (rows.filterMap (fun row => rowCode row codeIdx)) := by
  have happ : applyImport sarees rows codeIdx cm parseNum mkId dateAdded =
      (importBatch sarees rows codeIdx cm parseNum mkId dateAdded).1 ++ sarees := by
    unfold applyImport
    rw [if_pos hadded]
  refine ⟨happ, ?_, ?_, ?_⟩
  · rw [happ]
    exact List.take_left _ _
  · rw [happ]
    exact List.drop_left _ _
  · obtain ⟨t, ht1, ht2⟩ := importLoop_order sarees codeIdx cm parseNum mkId
      dateAdded rows [] 0 0 1
    have : (importBatch sarees rows codeIdx cm parseNum mkId dateAdded).1.map
        (fun s => s.code) = t := by
      simpa [importBatch] using ht1
    rw [this]
    exact ht2

/-- C6.  The concrete status-derivation scenario of the spec: importing the
two rows `CODE_A` (no status cell) and `CODE_B` (status text
`"Sold - floor 2"`) yields `CODE_A` with status `"available"`, but `CODE_B`
ends with status `"sold - floor 2"` — the lowercased full cell text — which
is NOT the enum value `"sold"` claimed by the spec: the import loop keeps
`statusStr` verbatim whenever it contains `"sold"` instead of replacing it
by `"sold"`. -/
theorem c6_import_status_kept_verbatim :
    (importBatch [] [["CODE_A"], ["CODE_B", "Sold - floor 2"]] 0
        ⟨none, none, none, none, none, some 1⟩ (fun _ => none)
        (fun i => toString i) "d").1.map (fun s => (s.code, s.status)) =
      [("CODE_A", "available"), ("CODE_B", "sold - floor 2")] ∧
    rowStatus ["CODE_B", "Sold - floor 2"] (some 1) = "sold - floor 2" ∧
    "sold - floor 2" ≠ "sold" ∧
    rowStatus ["CODE_A"] (some 1) = "available" := by
  refine ⟨by decide, by decide, by decide, by decide⟩

/-! ## CSV export (`exportToCSV`, App.jsx lines 449-473)

`exportToCSV` serialises a collection: `Object.keys(data[0]).join(',')` as
header, then one row per record, every value wrapped in double quotes with
internal quotes doubled (`String(val).replace(/"/g, '""')`), rows joined by
newlines; with no data it returns early with an error notification and
produces no file.  A re-parser reversing the quote wrapping and doubling is
defined below to state the round-trip claim. -/

/-- Escaping `String(val).replace(/"/g, '""')` : double every quote character. -/
def escQ : List Char → List Char
  | [] => []
  | c :: r => if c = '"' then '"' :: '"' :: escQ r else c :: escQ r

/-- One exported cell: the value wrapped in double quotes. -/
def quoteCell (v : List Char) : List Char := '"' :: (escQ v ++ ['"'])

/-- Joining `[...cells].join(',')`. -/
def joinCells : List (List Char) → List Char
  | [] => []
  | v :: rest =>
    quoteCell v ++ (if rest.isEmpty then [] else ',' :: joinCells rest)

/-- Joining `[headers, ...rows].join('\n')`. -/
def joinLines : List (List Char) → List Char
  | [] => []
  | r :: rest => r ++ (if rest.isEmpty then [] else '\n' :: joinLines rest)

/-- Embedding of `exportToCSV`: `none` models the `data.length === 0` early return (an
error notification only, no file, no state change); otherwise the
serialised document. -/
def exportToCSV (keys : List String) (data : List (List String)) : Option String :=
  if data.length = 0 then none
  else
    some (String.mk (joinLines
      ((String.intercalate "," keys).data ::
        data.map (fun row => joinCells (row.map String.data)))))

/-- Split the produced document back into its lines (inverse of the
`join('\n')`, valid while no value contains a newline). -/
def splitLines : List Char → List Char → List (List Char)
  | [], acc => [acc.reverse]
  | c :: rest, acc =>
    if c = '\n' then acc.reverse :: splitLines rest []
    else splitLines rest (c :: acc)

/-- The claim's reverse transform for one line: split into cells at commas
outside quotes, stripping the quote wrapping and halving doubled quotes. -/
def csvSplitRow : List Char → Bool → List Char → List (List Char)
  | [], _, cell => [cell.reverse]
  | c :: rest, inQ, cell =>
    if inQ then
      if c = '"' then
        if rest.head? = some '"' then csvSplitRow rest.tail true ('"' :: cell)
        else csvSplitRow rest false cell
      else csvSplitRow rest true (c :: cell)
    else
      if c = '"' then csvSplitRow rest true cell
      else if c = ',' then cell.reverse :: csvSplitRow rest false []
      else csvSplitRow rest false (c :: cell)
termination_by l _ _ => l.length
decreasing_by
  all_goals simp_wf
  all_goals omega

/-- Re-parse a produced document: drop the header line, split every
remaining line into its unescaped cells. -/
def csvReParse (doc : String) : List (List String) :=
  ((splitLines doc.data []).drop 1).map
    (fun r => (csvSplitRow r false []).map String.mk)

theorem splitLines_run (r : List Char) (hfree : '\n' ∉ r) :
    ∀ t acc, splitLines (r ++ t) acc = splitLines t (r.reverse ++ acc) := by
  induction r with
  | nil => intro t acc; simp
  | cons c r' ih =>
    intro t acc
    have hc : ¬(c = '\n') := fun h => hfree (h ▸ List.mem_cons_self c r')
    have hfree' : '\n' ∉ r' := fun h => hfree (List.mem_cons_of_mem c h)
    simp only [List.cons_append, splitLines, if_neg hc, List.append_eq]
    rw [ih hfree' t (c :: acc)]
    simp

theorem splitLines_join (rows : List (List Char)) (hne : rows ≠ [])
    (hfree : ∀ r ∈ rows, '\n' ∉ r) :
    splitLines (joinLines rows) [] = rows := by
  induction rows with
  | nil => exact absurd rfl hne
  | cons r rest ih =>
    have hr : '\n' ∉ r := hfree r (List.mem_cons_self r rest)
    cases rest with
    | nil =>
      show splitLines (joinLines [r]) [] = [r]
      have hj : joinLines [r] = r := by simp [joinLines]
      rw [hj, ← List.append_nil r, splitLines_run r hr]
      simp [splitLines]
    | cons r2 rest2 =>
      have hj : joinLines (r :: r2 :: rest2) =
          r ++ '\n' :: joinLines (r2 :: rest2) := by
        simp [joinLines]
      rw [hj, splitLines_run r hr]
      have hstep : splitLines ('\n' :: joinLines (r2 :: rest2))
          (r.reverse ++ []) = (r.reverse ++ []).reverse ::
            splitLines (joinLines (r2 :: rest2)) [] := by
        simp [splitLines]
      rw [hstep, ih (by simp) (fun x hx => hfree x (List.mem_cons_of_mem r hx))]
      simp

theorem csvSplitRow_escape (v : List Char) :
    ∀ tail cell, (tail = [] ∨ ∃ t, tail = ',' :: t) →
      csvSplitRow (escQ v ++ '"' :: tail) true cell =
        csvSplitRow tail false (v.reverse ++ cell) := by
  induction v with
  | nil =>
    intro tail cell htail
    rcases htail with h | ⟨t, h⟩ <;> subst h <;>
      simp [escQ, csvSplitRow]
  | cons c v' ih =>
    intro tail cell htail
    by_cases hc : c = '"'
    · subst hc
      have hesc : escQ ('"' :: v') ++ '"' :: tail =
          '"' :: ('"' :: (escQ v' ++ '"' :: tail)) := by
        simp [escQ]
      rw [hesc]
      have hstep : csvSplitRow ('"' :: ('"' :: (escQ v' ++ '"' :: tail)))
          true cell = csvSplitRow (escQ v' ++ '"' :: tail) true ('"' :: cell) := by
        simp [csvSplitRow]
      rw [hstep, ih tail ('"' :: cell) htail]
      simp
    · have hesc : escQ (c :: v') ++ '"' :: tail =
          c :: (escQ v' ++ '"' :: tail) := by
        simp [escQ, hc]
      rw [hesc]
      have hstep : csvSplitRow (c :: (escQ v' ++ '"' :: tail)) true cell =
          csvSplitRow (escQ v' ++ '"' :: tail) true (c :: cell) := by
        simp [csvSplitRow, hc]
      rw [hstep, ih tail (c :: cell) htail]
      simp

theorem csvSplitRow_cells (vals : List (List Char)) (hne : vals ≠ []) :
    csvSplitRow (joinCells vals) false [] = vals := by
  induction vals with
  | nil => exact absurd rfl hne
  | cons v rest ih =>
    cases rest with
    | nil =>
      have hj : joinCells [v] = '"' :: (escQ v ++ '"' :: []) := by
        simp [joinCells, quoteCell]
      rw [hj]
      have hstep : csvSplitRow ('"' :: (escQ v ++ '"' :: [])) false [] =
          csvSplitRow (escQ v ++ '"' :: []) true [] := by
        simp [csvSplitRow]
      rw [hstep, csvSplitRow_escape v [] [] (Or.inl rfl)]
      simp [csvSplitRow]
    | cons w rest2 =>
      have hj : joinCells (v :: w :: rest2) =
          '"' :: (escQ v ++ '"' :: (',' :: joinCells (w :: rest2))) := by
        simp [joinCells, quoteCell]
      rw [hj]
      have hstep : csvSplitRow ('"' :: (escQ v ++ '"' ::
          (',' :: joinCells (w :: rest2)))) false [] =
          csvSplitRow (escQ v ++ '"' :: (',' :: joinCells (w :: rest2)))
            true [] := by
        simp [csvSplitRow]
      rw [hstep, csvSplitRow_escape v (',' :: joinCells (w :: rest2)) []
        (Or.inr ⟨joinCells (w :: rest2), rfl⟩)]
      have hcomma : csvSplitRow (',' :: joinCells (w :: rest2)) false
          (v.reverse ++ []) = (v.reverse ++ []).reverse ::
            csvSplitRow (joinCells (w :: rest2)) false [] := by
        simp [csvSplitRow]
      rw [hcomma, ih (by simp)]
      simp

theorem mem_escQ (x : Char) (v : List Char) (h : x ∈ escQ v) :
    x = '"' ∨ x ∈ v := by
  induction v with
  | nil => simp [escQ] at h
  | cons c r ih =>
    by_cases hq : c = '"'
    · subst hq
      rw [show escQ ('"' :: r) = '"' :: '"' :: escQ r from by simp [escQ]] at h
      rcases List.mem_cons.mp h with h1 | h2
      · exact Or.inl h1
      · rcases List.mem_cons.mp h2 with h3 | h4
        · exact Or.inl h3
        · rcases ih h4 with h5 | h6
          · exact Or.inl h5
          · exact Or.inr (List.mem_cons_of_mem _ h6)
    · rw [show escQ (c :: r) = c :: escQ r from by simp [escQ, hq]] at h
      rcases List.mem_cons.mp h with h1 | h2
      · exact Or.inr (h1 ▸ List.mem_cons_self c r)
      · rcases ih h2 with h3 | h4
        · exact Or.inl h3
        · exact Or.inr (List.mem_cons_of_mem _ h4)

theorem mem_joinCells (x : Char) (vals : List (List Char))
    (h : x ∈ joinCells vals) : x = '"' ∨ x = ',' ∨ ∃ v ∈ vals, x ∈ v := by
  induction vals with
  | nil => simp [joinCells] at h
  | cons v rest ih =>
    have hquote : x ∈ quoteCell v → x = '"' ∨ x ∈ v := by
      intro hq
      rcases List.mem_cons.mp hq with h1 | h2
      · exact Or.inl h1
      · rcases List.mem_append.mp h2 with h3 | h4
        · exact mem_escQ x v h3
        · simp only [List.mem_singleton] at h4
          exact Or.inl h4
    cases rest with
    | nil =>
      rw [show joinCells [v] = quoteCell v ++ [] from by simp [joinCells]] at h
      rw [List.append_nil] at h
      rcases hquote h with h1 | h2
      · exact Or.inl h1
      · exact Or.inr (Or.inr ⟨v, List.mem_cons_self v [], h2⟩)
    | cons w rest2 =>
      rw [show joinCells (v :: w :: rest2) = quoteCell v ++
          ',' :: joinCells (w :: rest2) from by simp [joinCells]] at h
      rcases List.mem_append.mp h with h1 | h2
      · rcases hquote h1 with h3 | h4
        · exact Or.inl h3
        · exact Or.inr (Or.inr ⟨v, List.mem_cons_self v _, h4⟩)
      · rcases List.mem_cons.mp h2 with h3 | h4
        · exact Or.inr (Or.inl h3)
        · rcases ih h4 with h5 | h6
          · exact Or.inl h5
          · rcases h6 with h7 | ⟨u, hu, hxu⟩
            · exact Or.inr (Or.inl h7)
            · exact Or.inr (Or.inr ⟨u, List.mem_cons_of_mem v hu, hxu⟩)

theorem string_eta (s : String) : String.mk s.data = s := rfl

theorem csv_roundtrip (keys : List String) (data : List (List String))
    (hne : data ≠ []) (hrows : ∀ row ∈ data, row ≠ [])
    (hkeys : '\n' ∉ (String.intercalate "," keys).data)
    (hfree : ∀ row ∈ data, ∀ v ∈ row, '\n' ∉ v.data) :
    ∃ out, exportToCSV keys data = some out ∧ csvReParse out = data := by
  have hlen : ¬(data.length = 0) := by
    intro h
    exact hne (List.length_eq_zero.mp h)
  refine ⟨_, by rw [exportToCSV, if_neg hlen], ?_⟩
  unfold csvReParse
  rw [string_eta]
  show ((splitLines (joinLines ((String.intercalate "," keys).data ::
      data.map (fun row => joinCells (row.map String.data)))) []).drop 1).map
      (fun r => (csvSplitRow r false []).map String.mk) = data
  rw [splitLines_join]
  · rw [List.drop_one, List.tail_cons, List.map_map]
    have hrow_eq : ∀ row ∈ data,
        ((fun r => (csvSplitRow r false []).map String.mk) ∘
          fun row => joinCells (row.map String.data)) row = row := by
      intro row hrow
      simp only [Function.comp_apply]
      rw [csvSplitRow_cells]
      · rw [List.map_map]
        have h2 : ∀ v ∈ row, (String.mk ∘ String.data) v = v := by
          intro v _
          exact string_eta v
        rw [List.map_congr_left h2]
        exact List.map_id row
      · intro h
        exact hrows row hrow (by simpa using congrArg List.length h)
    rw [List.map_congr_left hrow_eq]
    exact List.map_id data
  · simp
  · intro r hr
    rcases List.mem_cons.mp hr with h1 | h2
    · rw [h1]; exact hkeys
    · simp only [List.mem_map] at h2
      obtain ⟨row, hrow, hrw⟩ := h2
      rw [← hrw]
      intro hmem
      rcases mem_joinCells '\n' (row.map String.data) hmem with h3 | h4
      · exact absurd h3 (by decide)
      · rcases h4 with h5 | ⟨u, hu, hxu⟩
        · exact absurd h5 (by decide)
        · simp only [List.mem_map] at hu
          obtain ⟨w, hw, hwu⟩ := hu
          rw [← hwu] at hxu
          exact hfree row hrow w hw hxu

/-! ## The two exported collections

`Object.values` / `Object.keys` of a Saree or Sale record, in
object-definition order; manual-add items carry a `type` field that
imported items lack, so the Saree field list depends on the record's shape.
`numStr` models JS number-to-string conversion (`String(val)`). -/

def sareeValues (numStr : Rat → String) (s : Saree) : List String :=
  [s.id, s.code, s.shopName, s.shopCode] ++
    (match s.type? with
     | some t => [t]
     | none => []) ++
    [numStr s.cp, numStr s.mrp, numStr s.asp60, s.status, s.dateAdded]

def sareeKeys (s : Saree) : List String :=
  ["id", "code", "shopName", "shopCode"] ++
    (match s.type? with
     | some _ => ["type"]
     | none => []) ++
    ["cp", "mrp", "asp60", "status", "dateAdded"]

def saleValues (numStr : Rat → String) (sl : Sale) : List String :=
  [sl.id, sl.sareeCode, numStr sl.salePrice, sl.paymentMethod, sl.saleDate]

def saleKeys : List String :=
  ["id", "sareeCode", "salePrice", "paymentMethod", "saleDate"]

/-- The `exportToCSV(sarees, 'Inventory_Master')` call. -/
def exportSarees (numStr : Rat → String) (items : List Saree) : Option String :=
  exportToCSV
    (match items with
     | [] => []
     | s :: _ => sareeKeys s)
    (items.map (sareeValues numStr))

/-- The `exportToCSV(sales, 'Sales_Log')` call. -/
def exportSales (numStr : Rat → String) (sales : List Sale) : Option String :=
  exportToCSV saleKeys (sales.map (saleValues numStr))

theorem sareeValues_ne_nil (numStr : Rat → String) (s : Saree) :
    sareeValues numStr s ≠ [] := by
  cases h : s.type? <;> simp [sareeValues, h]

theorem saleValues_ne_nil (numStr : Rat → String) (sl : Sale) :
    saleValues numStr sl ≠ [] := by
  simp [saleValues]

/-- C7.  Export round-trip: for a non-empty item (resp. sales) collection
whose field texts contain no newline (commas and quote characters are
fine), `exportToCSV` emits the header row plus one quoted row per record in
collection order, and the reverse transform (splitting lines, then cells at
commas outside quotes, and halving the doubled quotes) reconstructs every
field value of every record exactly, in order. -/
theorem c7_export_roundtrip (numStr : Rat → String)
    (items : List Saree) (sales : List Sale)
    (hi : items ≠ []) (hs : sales ≠ [])
    (hni : ∀ s ∈ items, ∀ v ∈ sareeValues numStr s, '\n' ∉ v.data)
    (hns : ∀ sl ∈ sales, ∀ v ∈ saleValues numStr sl, '\n' ∉ v.data) :
    (∃ out, exportSarees numStr items = some out ∧
      csvReParse out = items.map (sareeValues numStr)) ∧
    (∃ out, exportSales numStr sales = some out ∧
      csvReParse out = sales.map (saleValues numStr)) := by
  constructor
  · cases items with
    | nil => exact absurd rfl hi
    | cons s rest =>
      apply csv_roundtrip
      · simp
      · intro row hrow
        simp only [List.mem_map] at hrow
        obtain ⟨x, _, hx⟩ := hrow
        rw [← hx]
        exact sareeValues_ne_nil numStr x
      · cases h : s.type? <;> simp [sareeKeys, h] <;> decide
      · intro row hrow
        simp only [List.mem_map] at hrow
        obtain ⟨x, hxmem, hx⟩ := hrow
        intro v hv
        rw [← hx] at hv
        exact hni x hxmem v hv
  · apply csv_roundtrip
    · simpa using hs
    · intro row hrow
      simp only [List.mem_map] at hrow
      obtain ⟨x, _, hx⟩ := hrow
      rw [← hx]
      exact saleValues_ne_nil numStr x
    · decide
    · intro row hrow
      simp only [List.mem_map] at hrow
      obtain ⟨x, hxmem, hx⟩ := hrow
      intro v hv
      rw [← hx] at hv
      exact hns x hxmem v hv

/-- C10.  Implicit empty-collection guard: exporting an empty collection
produces no serialised table at all (`none`, the early error return — in
particular no header-only document), while any non-empty collection
produces a document; the export path never touches the collections (it is
a pure function of them in this model, as in the code, whose early return
only raises a notification). -/
theorem c10_export_empty_guard (keys : List String)
    (data : List (List String)) (hne : data ≠ []) :
    exportToCSV keys [] = none ∧
    (∀ ks : List String, exportToCSV ks [] = none) ∧
    ∃ out, exportToCSV keys data = some out := by
  refine ⟨rfl, fun ks => rfl, ?_⟩
  have hlen : ¬(data.length = 0) := by
    intro h
    exact hne (List.length_eq_zero.mp h)
  exact ⟨_, by rw [exportToCSV, if_neg hlen]⟩

/-! ## addItem field defaults (App.jsx lines 176-187)

`handleAddSaree` defaults: `shopName || 'Unknown Shop'`,
`shopCode || 'N/A'`, `type || 'Cotton'`, `parseFloat(...) || 0` for the
three price fields. -/

/-- C8 counterexample.  The claim says every missing text field other than
the shop name defaults to `"N/A"`; but the `type` field of an item added
with an entirely empty optional form defaults to `"Cotton"`, not `"N/A"`. -/
theorem c8_type_defaults_to_cotton :
    handleAddSaree [] ⟨"A", none, none, none, none, none, none⟩ "id1" "d1" =
      .ok [{ id := "id1"
             code := "A"
             shopName := "Unknown Shop"
             shopCode := "N/A"
             type? := some "Cotton"
             cp := 0
             mrp := 0
             asp60 := 0
             status := "available"
             dateAdded := "d1" }] ∧
    some "Cotton" ≠ some "N/A" := by
  refine ⟨by rfl, by decide⟩

/-- C8 (amended).  For every add whose numeric inputs are absent or
unparsable and whose text inputs are absent or empty, the created item's
numeric fields (cost price, list price, alternate price) default to 0 and
its text fields default to their sentinels: `"Unknown Shop"` (shop name),
`"N/A"` (shop code) and `"Cotton"` (type). -/
theorem c8_addItem_defaults (sarees : List Saree) (f : AddForm) (i d : String)
    (l : List Saree) (hok : handleAddSaree sarees f i d = .ok l)
    (hsn : f.shopName = none ∨ f.shopName = some "")
    (hsc : f.shopCode = none ∨ f.shopCode = some "")
    (hty : f.type? = none ∨ f.type? = some "")
    (hcp : f.cp = none) (hmrp : f.mrp = none) (hasp : f.asp60 = none) :
    ∃ s, l = s :: sarees ∧ s.shopName = "Unknown Shop" ∧ s.shopCode = "N/A" ∧
      s.type? = some "Cotton" ∧ s.cp = 0 ∧ s.mrp = 0 ∧ s.asp60 = 0 := by
  unfold handleAddSaree at hok
  by_cases hdup : sarees.any (fun s => s.code = jsToUpper f.code)
  · simp [hdup] at hok
  · simp only [hdup, Bool.false_eq_true, if_neg, if_false, Except.ok.injEq] at hok
    refine ⟨_, hok.symm, ?_, ?_, ?_, ?_, ?_, ?_⟩
    · rcases hsn with h | h <;> simp [jsOrStr, h]
    · rcases hsc with h | h <;> simp [jsOrStr, h]
    · rcases hty with h | h <;> simp [jsOrStr, h]
    · simp [jsOrNum, hcp]
    · simp [jsOrNum, hmrp]
    · simp [jsOrNum, hasp]

/-! ## Startup load and legacy migration (`loadData`, App.jsx lines 69-103)

The durable store (IndexedDB) holds the two collections under the keys
`saree_inventory` / `saree_sales`; the legacy mechanism (localStorage) holds
JSON strings under the same keys.  `decodeInv` / `decodeSales` model
`JSON.parse` on a value of the respective key.  JS truthiness: a stored
collection is an array and always truthy, so "absent" is the only falsy
durable-store case; a legacy string is falsy when absent or empty. -/

structure Stores where
  dbInventory : Option (List Saree)
  dbSales : Option (List Sale)
  lsInventory : Option String
  lsSales : Option String
deriving Repr, DecidableEq

/-- The in-memory state and store state after the startup sequence. -/
structure LoadResult where
  stores : Stores
  sarees : List Saree
  sales : List Sale
deriving Repr, DecidableEq

/-- Truthy legacy string: present and non-empty. -/
def lsGet (v : Option String) : Option String :=
  match v with
  | none => none
  | some s => if s = "" then none else some s

/-- Embedding of `loadData`: read each key from the durable store; when absent, fall
back to the legacy mechanism, JSON-decode the value, and write it forward
into the durable store; whatever value was obtained (if any) becomes the
initial in-memory collection, else the collection stays empty. -/
def loadData (st : Stores) (decodeInv : String → List Saree)
    (decodeSales : String → List Sale) : LoadResult :=
  let savedSarees :=
    match st.dbInventory with
    | some l => some l
    | none =>
      match lsGet st.lsInventory with
      | some enc => some (decodeInv enc)
      | none => none
  let savedSales :=
    match st.dbSales with
    | some l => some l
    | none =>
      match lsGet st.lsSales with
      | some enc => some (decodeSales enc)
      | none => none
  { stores := { st with dbInventory := savedSarees, dbSales := savedSales }
    sarees := savedSarees.getD []
    sales := savedSales.getD [] }

/-- C9.  Legacy migration: when a key is absent from the durable store but
the legacy mechanism holds a non-empty serialised value for it, the decoded
value both becomes the initial in-memory collection and is written forward
into the durable store under the same key; in particular, with an empty
durable store and a legacy inventory decoding to 3 items, the ledger starts
with exactly those 3 items and the durable store now holds them too. -/
theorem c9_legacy_migration (st : Stores) (decodeInv : String → List Saree)
    (decodeSales : String → List Sale) (encInv encSales : String)
    (hdbInv : st.dbInventory = none) (hlsInv : st.lsInventory = some encInv)
    (hencInv : encInv ≠ "")
    (hdbSales : st.dbSales = none) (hlsSales : st.lsSales = some encSales)
    (hencSales : encSales ≠ "")
    (hthree : (decodeInv encInv).length = 3) :
    (loadData st decodeInv decodeSales).sarees = decodeInv encInv ∧
    (loadData st decodeInv decodeSales).stores.dbInventory =
      some (decodeInv encInv) ∧
    (loadData st decodeInv decodeSales).sales = decodeSales encSales ∧
    (loadData st decodeInv decodeSales).stores.dbSales =
      some (decodeSales encSales) ∧
    (loadData st decodeInv decodeSales).sarees.length = 3 := by
  have hinv : lsGet st.lsInventory = some encInv := by
    rw [hlsInv]
    simp [lsGet, hencInv]
  have hsal : lsGet st.lsSales = some encSales := by
    rw [hlsSales]
    simp [lsGet, hencSales]
  refine ⟨?_, ?_, ?_, ?_, ?_⟩ <;>
    simp [loadData, hdbInv, hdbSales, hinv, hsal, hthree]

/-! ## Concrete witness data -/

def sampleA : Saree :=
  ⟨"i1", "A", "Shop", "SC", none, 1, 2, 3, "available", "d"⟩

def sampleB : Saree :=
  ⟨"i2", "B", "Shop", "SC", none, 1, 2, 3, "sold", "d"⟩

def sampleCartItem : CartItem := ⟨sampleA, "MRP", none⟩

def sampleSale : Sale := ⟨"s1", "B", 5, "Cash", "t0"⟩

def sampleState : PosState := ⟨[sampleA, sampleB], [sampleSale], [sampleCartItem], "Cash"⟩

def sampleForm : AddForm := ⟨"b", none, none, none, none, none, none⟩

theorem c1_addItem_code_uniqueness_witness :
    codesOk [sampleA] ∧
    ((((addItems [sampleA] [(sampleForm, "i9", "d9")]).map
        (fun s => jsToUpper s.code)).Nodup) ∧
      (∀ f i d, (∃ s ∈ [sampleA], s.code = jsToUpper f.code) →
        handleAddSaree [sampleA] f i d = .error .DuplicateCode) ∧
      (∀ f i d rest, (∃ s ∈ [sampleA], s.code = jsToUpper f.code) →
        addItems [sampleA] ((f, i, d) :: rest) = addItems [sampleA] rest)) :=
  ⟨by unfold codesOk; decide,
    c1_addItem_code_uniqueness [sampleA] [(sampleForm, "i9", "d9")]
      (by unfold codesOk; decide)⟩

theorem c2_checkout_batch_witness :
    ((sampleState.sarees.map (fun s => s.code)).Nodup ∧
      sampleState.cart ≠ [] ∧
      (sampleState.cart.map (fun ci => ci.saree.code)).Nodup ∧
      (∀ ci ∈ sampleState.cart, ∃ s ∈ sampleState.sarees,
        s.code = ci.saree.code ∧ s.status = "available")) ∧
    (((completeSaleTransaction sampleState "t1" (fun _ => "n")).sales =
        checkoutSales sampleState.paymentMethod "t1" (fun _ => "n")
          sampleState.cart 0 ++ sampleState.sales ∧
      (checkoutSales sampleState.paymentMethod "t1" (fun _ => "n")
          sampleState.cart 0).length = sampleState.cart.length ∧
      (checkoutSales sampleState.paymentMethod "t1" (fun _ => "n")
          sampleState.cart 0).map (fun sl => sl.sareeCode) =
        sampleState.cart.map (fun ci => ci.saree.code) ∧
      ∀ sl ∈ checkoutSales sampleState.paymentMethod "t1" (fun _ => "n")
          sampleState.cart 0,
        sl.saleDate = "t1" ∧ sl.paymentMethod = sampleState.paymentMethod) ∧
    (completeSaleTransaction sampleState "t1" (fun _ => "n")).sarees =
      sampleState.sarees.map (fun s =>
        if s.code ∈ sampleState.cart.map (fun ci => ci.saree.code)
        then setSold s else s) ∧
    (completeSaleTransaction sampleState "t1" (fun _ => "n")).cart = [] ∧
    (∀ st' : PosState, st'.cart = [] →
      completeSaleTransaction st' "t1" (fun _ => "n") = st')) :=
  ⟨⟨by decide, by decide, by decide, by decide⟩,
    c2_checkout_batch sampleState "t1" (fun _ => "n")
      (by decide) (by decide) (by decide) (by decide)⟩

theorem c3_processReturn_witness :
    ((sampleState.sarees.map (fun x => x.code)).Nodup ∧
      (∀ s ∈ sampleState.sarees, s.code ≠ "C") ∧
      sampleA ∈ sampleState.sarees ∧ sampleA.status = "available" ∧
      sampleB ∈ sampleState.sarees ∧ sampleB.status ≠ "available" ∧
      sampleCartItem.saree.code = sampleA.code) ∧
    (processReturn sampleState "C" = .error .NotFound ∧
      processReturn sampleState sampleA.code = .error .AlreadyAvailable ∧
      processReturn sampleState sampleB.code =
        .ok { sampleState with
              sarees := sampleState.sarees.map
                (fun x => if x.code = sampleB.code then setAvailable x else x)
              sales := sampleState.sales.filter
                (fun sl => sl.sareeCode ≠ sampleB.code) } ∧
      (∀ st', processReturn sampleState sampleB.code = .ok st' →
        processReturn st' sampleB.code = .error .AlreadyAvailable) ∧
      (∃ st₃,
        processReturn (completeSaleTransaction
            { sampleState with cart := [sampleCartItem] } "t1" (fun _ => "n"))
            sampleA.code = .ok st₃ ∧
        (∀ x ∈ st₃.sarees, x.code = sampleA.code → x.status = "available") ∧
        (∀ sl ∈ st₃.sales, sl.sareeCode ≠ sampleA.code) ∧
        processReturn st₃ sampleA.code = .error .AlreadyAvailable)) :=
  ⟨⟨by decide, by decide, by decide, by decide, by decide, by decide, by decide⟩,
    c3_processReturn sampleState "C" sampleA sampleB sampleCartItem "t1"
      (fun _ => "n") (by decide) (by decide) (by decide) (by decide)
      (by decide) (by decide) (by decide)⟩

theorem c4_import_dedup_witness :
    (rowCode ["B"] 0 = some "B" ∧ rowCode ["B"] 0 = some "B" ∧
      (∀ t ∈ [sampleA], t.code ≠ "B") ∧
      rowCode ["A"] 0 = some "A" ∧ (∃ t ∈ [sampleA], t.code = "A")) ∧
    ((((importBatch [sampleA] [["B"], ["B"]] 0
          ⟨none, none, none, none, none, none⟩ (fun _ => none)
          (fun _ => "m") "d").1.map (fun s => s.code)).Nodup ∧
      (∀ s ∈ (importBatch [sampleA] [["B"], ["B"]] 0
          ⟨none, none, none, none, none, none⟩ (fun _ => none)
          (fun _ => "m") "d").1, ¬∃ t ∈ [sampleA], t.code = s.code) ∧
      (importBatch [sampleA] [["B"], ["B"]] 0
          ⟨none, none, none, none, none, none⟩ (fun _ => none)
          (fun _ => "m") "d").2.1 =
        (importBatch [sampleA] [["B"], ["B"]] 0
          ⟨none, none, none, none, none, none⟩ (fun _ => none)
          (fun _ => "m") "d").1.length ∧
      (importBatch [sampleA] [["B"], ["B"]] 0
          ⟨none, none, none, none, none, none⟩ (fun _ => none)
          (fun _ => "m") "d").2.1 +
        (importBatch [sampleA] [["B"], ["B"]] 0
          ⟨none, none, none, none, none, none⟩ (fun _ => none)
          (fun _ => "m") "d").2.2 =
        ([["B"], ["B"]].filter
          (fun row => (rowCode row 0).isSome)).length) ∧
    importBatch [sampleA] [["B"], ["B"]] 0
        ⟨none, none, none, none, none, none⟩ (fun _ => none)
        (fun _ => "m") "d" =
      ([importRow ["B"] ⟨none, none, none, none, none, none⟩ "B" "m" "d"
        (fun _ => none)], 1, 1) ∧
    importBatch [sampleA] [["A"]] 0 ⟨none, none, none, none, none, none⟩
      (fun _ => none) (fun _ => "m") "d" = ([], 0, 1)) :=
  ⟨⟨by decide, by decide, by decide, by decide, by decide⟩,
    c4_import_dedup [sampleA] [["B"], ["B"]] 0
      ⟨none, none, none, none, none, none⟩ (fun _ => none) (fun _ => "m") "d"
      ["B"] ["B"] ["A"] "B" "A" (by decide) (by decide) (by decide) (by decide)
      (by decide)⟩

theorem c5_import_prepend_order_witness :
    0 < (importBatch [sampleA] [["B"]] 0 ⟨none, none, none, none, none, none⟩
      (fun _ => none) (fun _ => "m") "d").2.1 ∧
    (applyImport [sampleA] [["B"]] 0 ⟨none, none, none, none, none, none⟩
        (fun _ => none) (fun _ => "m") "d" =
      (importBatch [sampleA] [["B"]] 0 ⟨none, none, none, none, none, none⟩
        (fun _ => none) (fun _ => "m") "d").1 ++ [sampleA] ∧
    (applyImport [sampleA] [["B"]] 0 ⟨none, none, none, none, none, none⟩
        (fun _ => none) (fun _ => "m") "d").take
        (importBatch [sampleA] [["B"]] 0 ⟨none, none, none, none, none, none⟩
          (fun _ => none) (fun _ => "m") "d").1.length =
      (importBatch [sampleA] [["B"]] 0 ⟨none, none, none, none, none, none⟩
        (fun _ => none) (fun _ => "m") "d").1 ∧
    (applyImport [sampleA] [["B"]] 0 ⟨none, none, none, none, none, none⟩
        (fun _ => none) (fun _ => "m") "d").drop
        (importBatch [sampleA] [["B"]] 0 ⟨none, none, none, none, none, none⟩
          (fun _ => none) (fun _ => "m") "d").1.length =
      [sampleA] ∧
    ((importBatch [sampleA] [["B"]] 0 ⟨none, none, none, none, none, none⟩
        (fun _ => none) (fun _ => "m") "d").1.map (fun s => s.code)).Sublist
      ([["B"]].filterMap (fun row => rowCode row 0))) :=
  ⟨by decide,
    c5_import_prepend_order [sampleA] [["B"]] 0
      ⟨none, none, none, none, none, none⟩ (fun _ => none) (fun _ => "m") "d"
      (by decide)⟩

theorem c7_export_roundtrip_witness :
    (([sampleA] : List Saree) ≠ [] ∧ ([sampleSale] : List Sale) ≠ [] ∧
      (∀ s ∈ [sampleA], ∀ v ∈ sareeValues (fun _ => "1") s, '\n' ∉ v.data) ∧
      (∀ sl ∈ [sampleSale], ∀ v ∈ saleValues (fun _ => "1") sl,
        '\n' ∉ v.data)) ∧
    ((∃ out, exportSarees (fun _ => "1") [sampleA] = some out ∧
      csvReParse out = [sampleA].map (sareeValues (fun _ => "1"))) ∧
    (∃ out, exportSales (fun _ => "1") [sampleSale] = some out ∧
      csvReParse out = [sampleSale].map (saleValues (fun _ => "1")))) :=
  ⟨⟨by decide, by decide, by decide, by decide⟩,
    c7_export_roundtrip (fun _ => "1") [sampleA] [sampleSale]
      (by decide) (by decide) (by decide) (by decide)⟩

theorem c8_addItem_defaults_witness :
    (handleAddSaree [] sampleForm "id1" "d1" =
      .ok [{ id := "id1"
             code := "B"
             shopName := "Unknown Shop"
             shopCode := "N/A"
             type? := some "Cotton"
             cp := 0
             mrp := 0
             asp60 := 0
             status := "available"
             dateAdded := "d1" }] ∧
      (sampleForm.shopName = none ∨ sampleForm.shopName = some "") ∧
      (sampleForm.shopCode = none ∨ sampleForm.shopCode = some "") ∧
      (sampleForm.type? = none ∨ sampleForm.type? = some "") ∧
      sampleForm.cp = none ∧ sampleForm.mrp = none ∧
      sampleForm.asp60 = none) ∧
    (∃ s, [{ id := "id1"
             code := "B"
             shopName := "Unknown Shop"
             shopCode := "N/A"
             type? := some "Cotton"
             cp := 0
             mrp := 0
             asp60 := 0
             status := "available"
             dateAdded := "d1" }] = s :: ([] : List Saree) ∧
      s.shopName = "Unknown Shop" ∧ s.shopCode = "N/A" ∧
      s.type? = some "Cotton" ∧ s.cp = 0 ∧ s.mrp = 0 ∧ s.asp60 = 0) :=
  ⟨⟨by rfl, by decide, by decide, by decide, by decide, by decide, by decide⟩,
    c8_addItem_defaults [] sampleForm "id1" "d1" _ (by rfl) (by decide)
      (by decide) (by decide) (by decide) (by decide) (by decide)⟩

theorem c9_legacy_migration_witness :
    ((⟨none, none, some "enc1", some "enc2"⟩ : Stores).dbInventory = none ∧
      (⟨none, none, some "enc1", some "enc2"⟩ : Stores).lsInventory =
        some "enc1" ∧
      ("enc1" : String) ≠ "" ∧
      (⟨none, none, some "enc1", some "enc2"⟩ : Stores).dbSales = none ∧
      (⟨none, none, some "enc1", some "enc2"⟩ : Stores).lsSales =
        some "enc2" ∧
      ("enc2" : String) ≠ "" ∧
      ((fun _ => [sampleA, sampleB, sampleA] : String → List Saree)
        "enc1").length = 3) ∧
    ((loadData ⟨none, none, some "enc1", some "enc2"⟩
        (fun _ => [sampleA, sampleB, sampleA]) (fun _ => [sampleSale])).sarees =
      (fun _ => [sampleA, sampleB, sampleA] : String → List Saree) "enc1" ∧
    (loadData ⟨none, none, some "enc1", some "enc2"⟩
        (fun _ => [sampleA, sampleB, sampleA])
        (fun _ => [sampleSale])).stores.dbInventory =
      some ((fun _ => [sampleA, sampleB, sampleA] : String → List Saree)
        "enc1") ∧
    (loadData ⟨none, none, some "enc1", some "enc2"⟩
        (fun _ => [sampleA, sampleB, sampleA]) (fun _ => [sampleSale])).sales =
      (fun _ => [sampleSale] : String → List Sale) "enc2" ∧
    (loadData ⟨none, none, some "enc1", some "enc2"⟩
        (fun _ => [sampleA, sampleB, sampleA])
        (fun _ => [sampleSale])).stores.dbSales =
      some ((fun _ => [sampleSale] : String → List Sale) "enc2") ∧
    (loadData ⟨none, none, some "enc1", some "enc2"⟩
        (fun _ => [sampleA, sampleB, sampleA])
        (fun _ => [sampleSale])).sarees.length = 3) :=
  ⟨⟨by decide, by decide, by decide, by decide, by decide, by decide,
    by decide⟩,
    c9_legacy_migration ⟨none, none, some "enc1", some "enc2"⟩
      (fun _ => [sampleA, sampleB, sampleA]) (fun _ => [sampleSale])
      "enc1" "enc2" (by decide) (by decide) (by decide) (by decide)
      (by decide) (by decide) (by decide)⟩

theorem c10_export_empty_guard_witness :
    ([["x"]] : List (List String)) ≠ [] ∧
    (exportToCSV saleKeys [] = none ∧
      (∀ ks : List String, exportToCSV ks [] = none) ∧
      ∃ out, exportToCSV saleKeys [["x"]] = some out) :=
  ⟨by decide, c10_export_empty_guard saleKeys [["x"]] (by decide)⟩

end SareePos
